import Mathlib

/-!
Verification of the goshell PTY multiplexing server (`src/cmd/duh/main.go`).

The Go source is shallowly embedded over `List Nat` byte sequences.  Machine
bytes become `Nat` values; Go slices become lists; `bytes.Index` becomes an
`Option Nat`-valued first-occurrence search.  The stream processor
(`extractAndStoreHTML`, `stripHTMLMode`, the `streamPTY` per-chunk body),
the restart routine, the monitor tick, client registration and the widget
action handler are each translated directly from the source.
-/

namespace Goshell

/-- Bytes of an ASCII string literal. -/
def strBytes (s : String) : List Nat := s.data.map Char.toNat

/-- Source: `htmlStartMarker = []byte("\x1b]9001;HTML_START\x07")` (main.go line 584). -/
def htmlStartMarker : List Nat := strBytes "\x1b]9001;HTML_START\x07"

/-- Source: `htmlEndMarker = []byte("\x1b]9001;HTML_END\x07")` (main.go line 585). -/
def htmlEndMarker : List Nat := strBytes "\x1b]9001;HTML_END\x07"

/-- Whether `pat` matches at the head of `l` (the elementwise comparison that
a substring search performs at one candidate offset). -/
def prefixMatch : List Nat → List Nat → Bool
  | [], _ => true
  | _ :: _, [] => false
  | a :: p, b :: l => a == b && prefixMatch p l

/-- Models Go `bytes.Index(s, pat)`: index of the first occurrence of `pat`
in `s`, or `none` where Go returns `-1`. -/
def bytesIndex (s pat : List Nat) : Option Nat :=
  if prefixMatch pat s then some 0
  else
    match s with
    | [] => none
    | _ :: t => (bytesIndex t pat).map (· + 1)

/-- Models Go `bytes.Contains(s, pat)`. -/
def containsBytes (s pat : List Nat) : Bool := (bytesIndex s pat).isSome

/-- The three alternate-screen-exit patterns of `containsAltScreenExit`
(main.go lines 696-712). -/
def altExitPatterns : List (List Nat) :=
  [strBytes "\x1b[?1049l", strBytes "\x1b[?47l", strBytes "\x1b[?1047l"]

/-- Model of `containsAltScreenExit` (main.go lines 696-712). -/
def containsAltScreenExit (data : List Nat) : Bool :=
  altExitPatterns.any fun pat => containsBytes data pat

/-- Reversed decimal digits of a positive number (helper for `%d`). -/
def natDigitsRev : Nat → List Nat
  | 0 => []
  | n + 1 => (48 + (n + 1) % 10) :: natDigitsRev ((n + 1) / 10)
decreasing_by exact Nat.div_lt_self (Nat.succ_pos n) (by omega)

/-- Bytes that `fmt.Sprintf("%d", n)` produces. -/
def decimalDigits (n : Nat) : List Nat :=
  if n = 0 then [48] else (natDigitsRev n).reverse

/-- The OSC 8 hyperlink replacement built at main.go lines 751-753:
`fmt.Sprintf("\x1b]8;;htmlwidget:%d\x07\x1b[34;4m%s\x1b[0m\x1b]8;;\x07", widgetID, linkText)`
with `linkText = fmt.Sprintf("View HTML Output #%d", widgetID)`. -/
def linkFor (id : Nat) : List Nat :=
  strBytes "\x1b]8;;htmlwidget:" ++ decimalDigits id ++
    strBytes "\x07\x1b[34;4mView HTML Output #" ++ decimalDigits id ++
    strBytes "\x1b[0m\x1b]8;;\x07"

/-- The widget id counter and id-keyed HTML store (`htmlCounter`,
`htmlWidgets` fields of `ShellServer`, main.go lines 626-628). -/
structure Registry where
  htmlCounter : Nat
  htmlWidgets : List (Nat × List Nat)
deriving DecidableEq

example : htmlStartMarker =
    [27, 93, 57, 48, 48, 49, 59, 72, 84, 77, 76, 95, 83, 84, 65, 82, 84, 7] := by decide

example : htmlEndMarker =
    [27, 93, 57, 48, 48, 49, 59, 72, 84, 77, 76, 95, 69, 78, 68, 7] := by decide

theorem prefixMatch_length : ∀ {p l : List Nat}, prefixMatch p l = true → p.length ≤ l.length
  | [], _, _ => by simp
  | _ :: _, [], h => by simp [prefixMatch] at h
  | a :: p, b :: l, h => by
    simp only [prefixMatch, Bool.and_eq_true] at h
    simpa [Nat.succ_le_succ_iff] using prefixMatch_length h.2

theorem bytesIndex_some_drop : ∀ {s : List Nat} {pat : List Nat} {i : Nat},
    bytesIndex s pat = some i → prefixMatch pat (s.drop i) = true := by
  intro s
  induction s with
  | nil =>
    intro pat i h
    rw [bytesIndex] at h
    split at h
    · cases h; simpa using ‹prefixMatch pat [] = true›
    · simp at h
  | cons b t ih =>
    intro pat i h
    rw [bytesIndex] at h
    split at h
    · cases h; simpa using ‹prefixMatch pat (b :: t) = true›
    · simp only [Option.map_eq_some'] at h
      obtain ⟨j, hj, rfl⟩ := h
      simpa using ih hj

theorem bytesIndex_some_le : ∀ {s : List Nat} {pat : List Nat} {i : Nat},
    bytesIndex s pat = some i → i ≤ s.length := by
  intro s
  induction s with
  | nil =>
    intro pat i h
    rw [bytesIndex] at h
    split at h
    · cases h; simp
    · simp at h
  | cons b t ih =>
    intro pat i h
    rw [bytesIndex] at h
    split at h
    · cases h; simp
    · simp only [Option.map_eq_some'] at h
      obtain ⟨j, hj, rfl⟩ := h
      have := ih hj
      simp; omega

/-- An occurrence reported by `bytesIndex` fits inside the searched list. -/
theorem bytesIndex_some_bound {s pat : List Nat} {i : Nat}
    (h : bytesIndex s pat = some i) : i + pat.length ≤ s.length := by
  have h1 := bytesIndex_some_drop h
  have h2 := bytesIndex_some_le h
  have h3 := prefixMatch_length h1
  simp only [List.length_drop] at h3
  omega

theorem bytesIndex_some_ne_nil {s pat : List Nat} {i : Nat}
    (hpat : pat ≠ []) (h : bytesIndex s pat = some i) : s ≠ [] := by
  rintro rfl
  have hb := bytesIndex_some_bound h
  simp only [List.length_nil, Nat.le_zero] at hb
  exact hpat (List.length_eq_zero.mp (by omega))

/--
Model of `extractAndStoreHTML` (main.go lines 719-759).  The Go loop finds the first
complete start marker; with no matching end marker it keeps the tail pending,
otherwise it stores the payload under the next counter value and replaces the
whole marked block by `linkFor id`, then rescans.  Because the replacement
starts with `ESC` and both markers contain `ESC` only as their very first
byte and disagree with the replacement within its first three bytes, a rescan
from position 0 can never find a marker before or inside the inserted
replacement, so the loop is equivalently expressed as structural recursion on
the suffix after the replaced block (the prefix searched so far is emitted).
Returns `(processedData, remainingBuffer, widgetIDs, registry)`.
-/
def extractAndStoreHTML (reg : Registry) (data : List Nat) :
    List Nat × List Nat × List Nat × Registry :=
  match h1 : bytesIndex data htmlStartMarker with
  | none => (data, [], [], reg)
  | some startIdx =>
    match bytesIndex (data.drop startIdx) htmlEndMarker with
    | none => (data.take startIdx, data.drop startIdx, [], reg)
    | some endIdx =>
      let htmlContent :=
        (data.take (startIdx + endIdx)).drop (startIdx + htmlStartMarker.length)
      let widgetID := reg.htmlCounter + 1
      let reg1 : Registry := ⟨widgetID, reg.htmlWidgets ++ [(widgetID, htmlContent)]⟩
      let rest := data.drop (startIdx + endIdx + htmlEndMarker.length)
      let r := extractAndStoreHTML reg1 rest
      (data.take startIdx ++ linkFor widgetID ++ r.1, r.2.1, widgetID :: r.2.2.1, r.2.2.2)
termination_by data.length
decreasing_by
  have hb := bytesIndex_some_bound h1
  have hs : htmlStartMarker.length = 18 := by decide
  have he : htmlEndMarker.length = 16 := by decide
  simp only [List.length_drop]
  omega

/-- Model of `stripHTMLMode` (main.go lines 762-784): discard-only removal of
fully-formed marker blocks; an unmatched start marker truncates the buffer.
The Go loop rescans the concatenated result from the beginning (removal can
splice a marker together across the seam), which the recursion mirrors. -/
def stripHTMLMode (data : List Nat) : List Nat :=
  match h1 : bytesIndex data htmlStartMarker with
  | none => data
  | some startIdx =>
    match h2 : bytesIndex (data.drop startIdx) htmlEndMarker with
    | none => data.take startIdx
    | some endIdx =>
      stripHTMLMode (data.take startIdx ++ data.drop (startIdx + endIdx + htmlEndMarker.length))
termination_by data.length
decreasing_by
  have hb := bytesIndex_some_bound h1
  have he := bytesIndex_some_bound h2
  have hs : htmlStartMarker.length = 18 := by decide
  have hEnd : htmlEndMarker.length = 16 := by decide
  simp only [List.length_drop] at he
  simp only [List.length_append, List.length_take, List.length_drop]
  omega

/-- State of the single `ShellServer` (main.go lines 614-637) restricted to
the fields the claims are about.  `ptyFile = none` models a nil handle;
`ptyClosed` records whether `Close` was called on the current handle. -/
structure ShellServer where
  ptyFile : Option Nat
  ptyClosed : Bool
  shellPGID : Nat
  registry : Registry
  buffer : List Nat
  htmlBuffer : List Nat
deriving DecidableEq

/-- The per-read body of `streamPTY` (main.go lines 816-860): append the raw
chunk to the pending buffer, extract widgets, clear the replay buffer when
the raw chunk carries an alternate-screen-exit sequence, append processed
data, defensively strip marker blocks, trim to the trailing 64 KiB.  Returns
the new state, the broadcast (processed) data and the new widget ids. -/
def processChunk (s : ShellServer) (data : List Nat) :
    ShellServer × List Nat × List Nat :=
  let r := extractAndStoreHTML s.registry (s.htmlBuffer ++ data)
  let processed := r.1
  let remaining := r.2.1
  let widgetIDs := r.2.2.1
  let reg' := r.2.2.2
  let buf0 := if containsAltScreenExit data then [] else s.buffer
  let buf1 := stripHTMLMode (buf0 ++ processed)
  let buf2 := if buf1.length > 64 * 1024 then buf1.drop (buf1.length - 64 * 1024) else buf1
  ({ s with registry := reg', buffer := buf2, htmlBuffer := remaining }, processed, widgetIDs)

/-- Feeding successive chunks through the extraction path alone, carrying the
pending remainder between calls exactly as `streamPTY` does with
`s.htmlBuffer`.  Returns `(registry, pending, concatenated processed output,
concatenated widget ids)`. -/
def feedChunks (reg : Registry) (pending : List Nat) :
    List (List Nat) → Registry × List Nat × List Nat × List Nat
  | [] => (reg, pending, [], [])
  | c :: rest =>
    let r := extractAndStoreHTML reg (pending ++ c)
    let k := feedChunks r.2.2.2 r.2.1 rest
    (k.1, k.2.1, r.1 ++ k.2.2.1, r.2.2.1 ++ k.2.2.2)

/-- Driving the full per-chunk body over a chunk list.  Returns the final
state, the concatenated broadcast data and the concatenated widget ids. -/
def runChunks (s : ShellServer) : List (List Nat) → ShellServer × List Nat × List Nat
  | [] => (s, [], [])
  | c :: rest =>
    let r := processChunk s c
    let k := runChunks r.1 rest
    (k.1, r.2.1 ++ k.2.1, r.2.2 ++ k.2.2)

/-! ### Step equations for the extraction loop -/

theorem extract_none {reg : Registry} {data : List Nat}
    (h : bytesIndex data htmlStartMarker = none) :
    extractAndStoreHTML reg data = (data, [], [], reg) := by
  rw [extractAndStoreHTML.eq_def, h]

theorem extract_pending {reg : Registry} {data : List Nat} {s : Nat}
    (h1 : bytesIndex data htmlStartMarker = some s)
    (h2 : bytesIndex (data.drop s) htmlEndMarker = none) :
    extractAndStoreHTML reg data = (data.take s, data.drop s, [], reg) := by
  rw [extractAndStoreHTML.eq_def, h1]
  dsimp only
  rw [h2]

theorem extract_found {reg : Registry} {data : List Nat} {s e : Nat}
    (h1 : bytesIndex data htmlStartMarker = some s)
    (h2 : bytesIndex (data.drop s) htmlEndMarker = some e) :
    extractAndStoreHTML reg data =
      (data.take s ++ linkFor (reg.htmlCounter + 1) ++
        (extractAndStoreHTML
          ⟨reg.htmlCounter + 1,
           reg.htmlWidgets ++
             [(reg.htmlCounter + 1, (data.take (s + e)).drop (s + htmlStartMarker.length))]⟩
          (data.drop (s + e + htmlEndMarker.length))).1,
       (extractAndStoreHTML
          ⟨reg.htmlCounter + 1,
           reg.htmlWidgets ++
             [(reg.htmlCounter + 1, (data.take (s + e)).drop (s + htmlStartMarker.length))]⟩
          (data.drop (s + e + htmlEndMarker.length))).2.1,
       (reg.htmlCounter + 1) ::
         (extractAndStoreHTML
          ⟨reg.htmlCounter + 1,
           reg.htmlWidgets ++
             [(reg.htmlCounter + 1, (data.take (s + e)).drop (s + htmlStartMarker.length))]⟩
          (data.drop (s + e + htmlEndMarker.length))).2.2.1,
       (extractAndStoreHTML
          ⟨reg.htmlCounter + 1,
           reg.htmlWidgets ++
             [(reg.htmlCounter + 1, (data.take (s + e)).drop (s + htmlStartMarker.length))]⟩
          (data.drop (s + e + htmlEndMarker.length))).2.2.2) := by
  rw [extractAndStoreHTML.eq_def, h1]
  dsimp only
  rw [h2]

theorem strip_none {data : List Nat} (h : bytesIndex data htmlStartMarker = none) :
    stripHTMLMode data = data := by
  rw [stripHTMLMode.eq_def, h]

theorem strip_pending {data : List Nat} {s : Nat}
    (h1 : bytesIndex data htmlStartMarker = some s)
    (h2 : bytesIndex (data.drop s) htmlEndMarker = none) :
    stripHTMLMode data = data.take s := by
  rw [stripHTMLMode.eq_def, h1]
  dsimp only
  rw [h2]

/-! ### Prefix-match and first-occurrence theory -/

theorem prefixMatch_iff : ∀ {p l : List Nat}, prefixMatch p l = true ↔ p <+: l
  | [], l => by simp [prefixMatch]
  | a :: p, [] => by simp [prefixMatch]
  | a :: p, b :: l => by
    simp only [prefixMatch, Bool.and_eq_true, beq_iff_eq, List.cons_prefix_cons]
    exact and_congr Iff.rfl prefixMatch_iff

theorem prefixMatch_append_self {p x : List Nat} : prefixMatch p (p ++ x) = true :=
  prefixMatch_iff.mpr ⟨x, rfl⟩

theorem prefixMatch_head_ne {p0 b : Nat} {pt l : List Nat} (h : p0 ≠ b) :
    prefixMatch (p0 :: pt) (b :: l) = false := by
  cases hpm : prefixMatch (p0 :: pt) (b :: l)
  · rfl
  · exact absurd (List.cons_prefix_cons.mp (prefixMatch_iff.mp hpm)).1 h

theorem bytesIndex_self {p x : List Nat} : bytesIndex (p ++ x) p = some 0 := by
  rw [bytesIndex.eq_def, if_pos prefixMatch_append_self]

theorem bytesIndex_none_cons {b : Nat} {t pat : List Nat}
    (h : bytesIndex (b :: t) pat = none) :
    prefixMatch pat (b :: t) = false ∧ bytesIndex t pat = none := by
  rw [bytesIndex] at h
  split at h
  · simp at h
  · exact ⟨by simpa using ‹¬prefixMatch pat (b :: t) = true›, by simpa using h⟩

theorem bytesIndex_cons_of_not {b : Nat} {t pat : List Nat}
    (h : prefixMatch pat (b :: t) = false) :
    bytesIndex (b :: t) pat = (bytesIndex t pat).map (· + 1) := by
  rw [bytesIndex, if_neg (by simp [h])]

/-- Before the first occurrence there is no occurrence: the prefix cut at the
reported index contains none. -/
theorem bytesIndex_take_of_some : ∀ {l : List Nat} {pat : List Nat} {i : Nat},
    pat ≠ [] → bytesIndex l pat = some i → bytesIndex (l.take i) pat = none := by
  intro l
  induction l with
  | nil =>
    intro pat i hpat h
    rw [bytesIndex] at h
    split at h
    · obtain ⟨p0, pt, rfl⟩ : ∃ p0 pt, pat = p0 :: pt := by
        cases pat with
        | nil => exact absurd rfl hpat
        | cons p0 pt => exact ⟨p0, pt, rfl⟩
      simp [prefixMatch] at *
    · simp at h
  | cons b t ih =>
    intro pat i hpat h
    rw [bytesIndex] at h
    split at h
    · cases h
      rw [List.take_zero, bytesIndex]
      obtain ⟨p0, pt, rfl⟩ : ∃ p0 pt, pat = p0 :: pt := by
        cases pat with
        | nil => exact absurd rfl hpat
        | cons p0 pt => exact ⟨p0, pt, rfl⟩
      simp [prefixMatch]
    · rename_i hcond
      simp only [Option.map_eq_some'] at h
      obtain ⟨j, hj, rfl⟩ := h
      rw [List.take_succ_cons]
      have hfalse : prefixMatch pat (b :: t.take j) = false := by
        cases hpm : prefixMatch pat (b :: t.take j)
        · rfl
        · exfalso
          have hpre : pat <+: b :: t.take j := prefixMatch_iff.mp hpm
          have : pat <+: b :: t :=
            hpre.trans (List.cons_prefix_cons.mpr ⟨rfl, List.take_prefix j t⟩)
          exact hcond (prefixMatch_iff.mpr this)
      rw [bytesIndex_cons_of_not hfalse, ih hpat hj]
      rfl

/-! ### Shift lemmas: segments in which no marker occurrence can begin -/

/-- No ESC byte (`0x1b`) occurs in `l`. -/
def noEsc (l : List Nat) : Prop := ∀ b ∈ l, b ≠ 27

instance (l : List Nat) : Decidable (noEsc l) :=
  inferInstanceAs (Decidable (∀ b ∈ l, b ≠ 27))

theorem noEsc_append {a b : List Nat} (ha : noEsc a) (hb : noEsc b) : noEsc (a ++ b) := by
  intro x hx
  rcases List.mem_append.mp hx with h | h
  · exact ha x h
  · exact hb x h

theorem noEsc_of_subset {a b : List Nat} (h : a ⊆ b) (hb : noEsc b) : noEsc a :=
  fun x hx => hb x (h hx)

/-- Searching past segment `l` shifts the result by `l.length`: no occurrence
of `pat` can begin inside `l`, not even one spanning into the continuation. -/
def shiftsOver (pat l : List Nat) : Prop :=
  ∀ x, bytesIndex (l ++ x) pat = (bytesIndex x pat).map (· + l.length)

theorem shiftsOver_nil {pat : List Nat} : shiftsOver pat [] := by
  intro x
  cases h : bytesIndex x pat <;> simp [h]

theorem shiftsOver_append {pat a b : List Nat}
    (ha : shiftsOver pat a) (hb : shiftsOver pat b) : shiftsOver pat (a ++ b) := by
  intro x
  rw [List.append_assoc, ha, hb]
  cases bytesIndex x pat <;> simp [List.length_append] <;> omega

theorem shiftsOver_cons {pat : List Nat} {b : Nat} {l : List Nat}
    (hpm : ∀ x, prefixMatch pat (b :: (l ++ x)) = false)
    (hl : shiftsOver pat l) : shiftsOver pat (b :: l) := by
  intro x
  rw [List.cons_append, bytesIndex_cons_of_not (hpm x), hl]
  cases bytesIndex x pat <;> simp <;> omega

theorem shiftsOver_cons_head_ne {p0 b : Nat} {pt l : List Nat} (hb : b ≠ p0)
    (hl : shiftsOver (p0 :: pt) l) : shiftsOver (p0 :: pt) (b :: l) :=
  shiftsOver_cons (fun _ => prefixMatch_head_ne fun h => hb h.symm) hl

theorem shiftsOver_of_noEsc {pt l : List Nat} (h : noEsc l) : shiftsOver (27 :: pt) l := by
  induction l with
  | nil => exact shiftsOver_nil
  | cons b t ih =>
    exact shiftsOver_cons_head_ne (h b (by simp))
      (ih fun c hc => h c (by simp [hc]))

theorem bytesIndex_nil_cons {p0 : Nat} {pt : List Nat} :
    bytesIndex [] (p0 :: pt) = none := by
  rw [bytesIndex.eq_def]
  simp [prefixMatch]

theorem bytesIndex_none_of_shiftsOver {p0 : Nat} {pt l : List Nat}
    (h : shiftsOver (p0 :: pt) l) : bytesIndex l (p0 :: pt) = none := by
  have hx := h []
  rw [List.append_nil, bytesIndex_nil_cons] at hx
  simpa using hx

theorem bytesIndex_none_of_noEsc {pt l : List Nat} (h : noEsc l) :
    bytesIndex l (27 :: pt) = none :=
  bytesIndex_none_of_shiftsOver (shiftsOver_of_noEsc h)

/-- An occurrence of `27 :: 93 :: 57 :: _` cannot begin at an ESC whose next
byte differs from `93`. -/
theorem shiftsOver_cons27_ne2 {pt : List Nat} {b : Nat} {l : List Nat} (hb : b ≠ 93)
    (hl : shiftsOver (27 :: 93 :: 57 :: pt) (b :: l)) :
    shiftsOver (27 :: 93 :: 57 :: pt) (27 :: b :: l) := by
  apply shiftsOver_cons _ hl
  intro x
  simp only [List.cons_append]
  cases hpm : prefixMatch (27 :: 93 :: 57 :: pt) (27 :: b :: (l ++ x))
  · rfl
  · exfalso
    have h1 := List.cons_prefix_cons.mp (prefixMatch_iff.mp hpm)
    have h2 := List.cons_prefix_cons.mp h1.2
    exact hb h2.1.symm

/-- An occurrence of `27 :: 93 :: 57 :: _` cannot begin at `ESC ]` whose next
byte differs from `57`. -/
theorem shiftsOver_cons27_93_ne3 {pt : List Nat} {c : Nat} {l : List Nat} (hc : c ≠ 57)
    (hl : shiftsOver (27 :: 93 :: 57 :: pt) (93 :: c :: l)) :
    shiftsOver (27 :: 93 :: 57 :: pt) (27 :: 93 :: c :: l) := by
  apply shiftsOver_cons _ hl
  intro x
  simp only [List.cons_append]
  cases hpm : prefixMatch (27 :: 93 :: 57 :: pt) (27 :: 93 :: c :: (l ++ x))
  · rfl
  · exfalso
    have h1 := List.cons_prefix_cons.mp (prefixMatch_iff.mp hpm)
    have h2 := List.cons_prefix_cons.mp h1.2
    have h3 := List.cons_prefix_cons.mp h2.2
    exact hc h3.1.symm

/-! ### The hyperlink replacement admits no marker occurrence -/

theorem noEsc_natDigitsRev : ∀ n, noEsc (natDigitsRev n) := by
  intro n
  induction n using Nat.strong_induction_on with
  | _ n ih =>
    match n with
    | 0 =>
      rw [natDigitsRev]
      intro b hb
      simp at hb
    | m + 1 =>
      rw [natDigitsRev]
      intro b hb
      rcases List.mem_cons.mp hb with h | h
      · omega
      · exact ih ((m + 1) / 10) (Nat.div_lt_self (Nat.succ_pos m) (by omega)) b h

theorem noEsc_decimalDigits (n : Nat) : noEsc (decimalDigits n) := by
  rw [decimalDigits]
  split
  · intro b hb; simp at hb; omega
  · intro b hb
    exact noEsc_natDigitsRev n b (List.mem_reverse.mp hb)

theorem shiftsOver_linkFor {pt : List Nat} (id : Nat) :
    shiftsOver (27 :: 93 :: 57 :: pt) (linkFor id) := by
  have hA : strBytes "\x1b]8;;htmlwidget:" =
      ([27, 93, 56, 59, 59, 104, 116, 109, 108, 119, 105, 100, 103, 101, 116, 58] :
        List Nat) := by decide
  have hB : strBytes "\x07\x1b[34;4mView HTML Output #" =
      ([7, 27, 91, 51, 52, 59, 52, 109, 86, 105, 101, 119, 32, 72, 84, 77, 76, 32,
        79, 117, 116, 112, 117, 116, 32, 35] : List Nat) := by decide
  have hC : strBytes "\x1b[0m\x1b]8;;\x07" =
      ([27, 91, 48, 109] ++ [27, 93, 56, 59, 59, 7] : List Nat) := by decide
  have sA : shiftsOver (27 :: 93 :: 57 :: pt)
      ([27, 93, 56, 59, 59, 104, 116, 109, 108, 119, 105, 100, 103, 101, 116, 58] :
        List Nat) :=
    shiftsOver_cons27_93_ne3 (by omega) (shiftsOver_of_noEsc (by decide))
  have sB : shiftsOver (27 :: 93 :: 57 :: pt)
      ([7, 27, 91, 51, 52, 59, 52, 109, 86, 105, 101, 119, 32, 72, 84, 77, 76, 32,
        79, 117, 116, 112, 117, 116, 32, 35] : List Nat) :=
    shiftsOver_cons_head_ne (by omega)
      (shiftsOver_cons27_ne2 (by omega) (shiftsOver_of_noEsc (by decide)))
  have sC : shiftsOver (27 :: 93 :: 57 :: pt)
      ([27, 91, 48, 109] ++ [27, 93, 56, 59, 59, 7] : List Nat) :=
    shiftsOver_append
      (shiftsOver_cons27_ne2 (by omega) (shiftsOver_of_noEsc (by decide)))
      (shiftsOver_cons27_93_ne3 (by omega) (shiftsOver_of_noEsc (by decide)))
  rw [linkFor, hA, hB, hC]
  simp only [List.append_assoc]
  exact shiftsOver_append sA
    (shiftsOver_append (shiftsOver_of_noEsc (noEsc_decimalDigits id))
      (shiftsOver_append sB
        (shiftsOver_append (shiftsOver_of_noEsc (noEsc_decimalDigits id)) sC)))

theorem linkFor_head (id : Nat) : (linkFor id).head? = some 27 := by
  have hA : strBytes "\x1b]8;;htmlwidget:" =
      ([27, 93, 56, 59, 59, 104, 116, 109, 108, 119, 105, 100, 103, 101, 116, 58] :
        List Nat) := by decide
  rw [linkFor, hA]
  rfl

/-! ### Marker shapes and specialized search lemmas -/

theorem startMarker_shape : htmlStartMarker =
    27 :: 93 :: 57 :: [48, 48, 49, 59, 72, 84, 77, 76, 95, 83, 84, 65, 82, 84, 7] := by
  decide

theorem endMarker_shape : htmlEndMarker =
    27 :: 93 :: 57 :: [48, 48, 49, 59, 72, 84, 77, 76, 95, 69, 78, 68, 7] := by
  decide

theorem bytesIndex_start_none_of_noEsc {l : List Nat} (h : noEsc l) :
    bytesIndex l htmlStartMarker = none := by
  rw [startMarker_shape]
  exact bytesIndex_none_of_noEsc h

theorem bytesIndex_end_none_of_noEsc {l : List Nat} (h : noEsc l) :
    bytesIndex l htmlEndMarker = none := by
  rw [endMarker_shape]
  exact bytesIndex_none_of_noEsc h

theorem shiftsOver_start_of_noEsc {l : List Nat} (h : noEsc l) :
    shiftsOver htmlStartMarker l := by
  rw [startMarker_shape]
  exact shiftsOver_of_noEsc h

theorem shiftsOver_end_of_noEsc {l : List Nat} (h : noEsc l) :
    shiftsOver htmlEndMarker l := by
  rw [endMarker_shape]
  exact shiftsOver_of_noEsc h

/-- The end marker cannot begin inside the start marker (they disagree at
offset 12, within the start marker). -/
theorem shiftsOver_end_start : shiftsOver htmlEndMarker htmlStartMarker := by
  rw [startMarker_shape]
  apply shiftsOver_cons
  · intro x
    rw [endMarker_shape]
    simp [prefixMatch, List.cons_append]
  · rw [endMarker_shape]
    exact shiftsOver_of_noEsc (by decide)

/-- Composing occurrence-free segments when the continuation begins with ESC:
no occurrence of `pat` can straddle the seam because `pat` contains ESC only
as its head byte. -/
theorem bytesIndex_append_none_of_head27 {pat : List Nat}
    (hpat : ∃ pt, pat = 27 :: pt ∧ 27 ∉ pt) :
    ∀ {a b : List Nat}, bytesIndex a pat = none → bytesIndex b pat = none →
      b.head? = some 27 → bytesIndex (a ++ b) pat = none := by
  obtain ⟨pt, rfl, hpt⟩ := hpat
  intro a
  induction a with
  | nil =>
    intro b ha hb hh
    simpa using hb
  | cons h t ih =>
    intro b ha hb hh
    obtain ⟨hpm, ht⟩ := bytesIndex_none_cons ha
    have hpm2 : prefixMatch (27 :: pt) (h :: (t ++ b)) = false := by
      cases hpm2c : prefixMatch (27 :: pt) (h :: (t ++ b))
      · rfl
      · exfalso
        obtain ⟨hh27, hptb⟩ := List.cons_prefix_cons.mp (prefixMatch_iff.mp hpm2c)
        by_cases hlen : pt.length ≤ t.length
        · have htb : t <+: t ++ b := List.prefix_append t b
          have hpt_t : pt <+: t := List.prefix_of_prefix_length_le hptb htb hlen
          have : prefixMatch (27 :: pt) (h :: t) = true :=
            prefixMatch_iff.mpr (List.cons_prefix_cons.mpr ⟨hh27, hpt_t⟩)
          rw [hpm] at this
          simp at this
        · have htb : t <+: t ++ b := List.prefix_append t b
          have ht_pt : t <+: pt := List.prefix_of_prefix_length_le htb hptb (by omega)
          obtain ⟨pt', hpt'⟩ := ht_pt
          obtain ⟨r, hr⟩ := hptb
          rw [← hpt', List.append_assoc] at hr
          have hb_eq : pt' ++ r = b := List.append_cancel_left hr
          cases pt' with
          | nil =>
            rw [List.append_nil] at hpt'
            exact hlen (le_of_eq (by rw [← hpt']))
          | cons q qs =>
            have hq : q = 27 := by
              rw [← hb_eq] at hh
              simpa using hh
            subst hq
            apply hpt
            rw [← hpt']
            exact List.mem_append.mpr (Or.inr (List.mem_cons_self _ _))
    rw [List.cons_append, bytesIndex_cons_of_not hpm2, ih ht hb hh]
    rfl

/-! ### The processed output never contains a start marker -/

theorem extract_processed_none_aux :
    ∀ (n : Nat) (data : List Nat) (reg : Registry), data.length ≤ n →
      bytesIndex (extractAndStoreHTML reg data).1 htmlStartMarker = none := by
  intro n
  induction n with
  | zero =>
    intro data reg hlen
    have hd : data = [] := List.length_eq_zero.mp (by omega)
    subst hd
    have h0 : bytesIndex ([] : List Nat) htmlStartMarker = none := by decide
    rw [extract_none h0]
    exact h0
  | succ n ih =>
    intro data reg hlen
    rcases h1 : bytesIndex data htmlStartMarker with _ | s
    · rw [extract_none h1]
      exact h1
    · rcases h2 : bytesIndex (data.drop s) htmlEndMarker with _ | e
      · rw [extract_pending h1 h2]
        exact bytesIndex_take_of_some (by decide) h1
      · rw [extract_found h1 h2]
        have hlenS : htmlStartMarker.length = 18 := by decide
        have hlenE : htmlEndMarker.length = 16 := by decide
        have hb1 := bytesIndex_some_bound h1
        have hrest : (data.drop (s + e + htmlEndMarker.length)).length ≤ n := by
          simp only [List.length_drop]
          omega
        have hrec := ih (data.drop (s + e + htmlEndMarker.length))
          ⟨reg.htmlCounter + 1,
           reg.htmlWidgets ++
             [(reg.htmlCounter + 1, (data.take (s + e)).drop (s + htmlStartMarker.length))]⟩
          hrest
        have hlink : shiftsOver htmlStartMarker (linkFor (reg.htmlCounter + 1)) := by
          rw [startMarker_shape]
          exact shiftsOver_linkFor _
        rw [List.append_assoc]
        apply bytesIndex_append_none_of_head27 ⟨_, startMarker_shape, by decide⟩
        · exact bytesIndex_take_of_some (by decide) h1
        · rw [hlink, hrec]
          rfl
        · rw [List.head?_append, linkFor_head]
          rfl

/-- The processed output returned by the extraction loop contains no start
marker occurrence. -/
theorem extract_processed_none (reg : Registry) (data : List Nat) :
    bytesIndex (extractAndStoreHTML reg data).1 htmlStartMarker = none :=
  extract_processed_none_aux data.length data reg le_rfl

/-- Defensive stripping is the identity on extraction output. -/
theorem strip_extract_processed (reg : Registry) (data : List Nat) :
    stripHTMLMode (extractAndStoreHTML reg data).1 = (extractAndStoreHTML reg data).1 :=
  strip_none (extract_processed_none reg data)

/-! ### Extraction on well-formed input -/

theorem extract_noEsc {reg : Registry} {data : List Nat} (h : noEsc data) :
    extractAndStoreHTML reg data = (data, [], [], reg) :=
  extract_none (bytesIndex_start_none_of_noEsc h)

/-- One well-formed block at the front: the payload is stored under the next
id, the block is replaced by the hyperlink, and the loop continues on the
remainder. -/
theorem extract_step {c : Nat} {w : List (Nat × List Nat)}
    {pre payload rest : List Nat} (hpre : noEsc pre) (hpay : noEsc payload) :
    extractAndStoreHTML ⟨c, w⟩
        (pre ++ (htmlStartMarker ++ (payload ++ (htmlEndMarker ++ rest)))) =
      (pre ++ linkFor (c + 1) ++
          (extractAndStoreHTML ⟨c + 1, w ++ [(c + 1, payload)]⟩ rest).1,
       (extractAndStoreHTML ⟨c + 1, w ++ [(c + 1, payload)]⟩ rest).2.1,
       (c + 1) :: (extractAndStoreHTML ⟨c + 1, w ++ [(c + 1, payload)]⟩ rest).2.2.1,
       (extractAndStoreHTML ⟨c + 1, w ++ [(c + 1, payload)]⟩ rest).2.2.2) := by
  have hlenS : htmlStartMarker.length = 18 := by decide
  have hlenE : htmlEndMarker.length = 16 := by decide
  have h1 : bytesIndex (pre ++ (htmlStartMarker ++ (payload ++ (htmlEndMarker ++ rest))))
      htmlStartMarker = some pre.length := by
    rw [shiftsOver_start_of_noEsc hpre, bytesIndex_self]
    simp
  have h2 : bytesIndex ((pre ++ (htmlStartMarker ++ (payload ++ (htmlEndMarker ++ rest)))).drop
      pre.length) htmlEndMarker = some (payload.length + 18) := by
    rw [List.drop_left, shiftsOver_end_start, shiftsOver_end_of_noEsc hpay, bytesIndex_self]
    simp [hlenS]
  rw [extract_found h1 h2]
  have e1 : (pre ++ (htmlStartMarker ++ (payload ++ (htmlEndMarker ++ rest)))).take
      pre.length = pre := List.take_left pre _
  have assoc1 : pre ++ (htmlStartMarker ++ (payload ++ (htmlEndMarker ++ rest))) =
      (pre ++ htmlStartMarker ++ payload) ++ (htmlEndMarker ++ rest) := by
    simp [List.append_assoc]
  have e2 : ((pre ++ (htmlStartMarker ++ (payload ++ (htmlEndMarker ++ rest)))).take
      (pre.length + (payload.length + 18))).drop (pre.length + htmlStartMarker.length) =
      payload := by
    rw [assoc1, List.take_left' (by simp [hlenS]; try omega), hlenS,
      List.drop_left' (by simp [hlenS]; try omega)]
  have assoc2 : pre ++ (htmlStartMarker ++ (payload ++ (htmlEndMarker ++ rest))) =
      (pre ++ htmlStartMarker ++ payload ++ htmlEndMarker) ++ rest := by
    simp [List.append_assoc]
  have e3 : (pre ++ (htmlStartMarker ++ (payload ++ (htmlEndMarker ++ rest)))).drop
      (pre.length + (payload.length + 18) + htmlEndMarker.length) = rest := by
    rw [assoc2, List.drop_left' (by simp [hlenS, hlenE]; try omega)]
  rw [e1, e2, e3]

/-! ### Remaining server operations -/

/-- The trailing `n` bytes of `l` (all of `l` when it is shorter). -/
def lastN (n : Nat) (l : List Nat) : List Nat := l.drop (l.length - n)

/-- The success/failure outcome of `restart` (main.go lines 786-810).  The
routine first closes the current PTY handle, then attempts `startPTY`; the
attempt outcome is the environment parameter `res` (`some (handle, pgid)` on
success).  On success the handle and group id are replaced and the replay
buffer is cleared; `htmlBuffer` is not touched on either path.  Returns the
mutated state and whether the restart succeeded. -/
def restartModel (s : ShellServer) (res : Option (Nat × Nat)) : ShellServer × Bool :=
  let s1 := { s with ptyClosed := true }
  match res with
  | none => (s1, false)
  | some hg =>
    ({ s1 with
        ptyFile := some hg.1
        ptyClosed := false
        shellPGID := hg.2
        buffer := [] }, true)

/-- One tick of `monitorStatus` (main.go lines 917-947).  `exit` models the
`return` taken when the PTY handle is nil; otherwise the tick continues,
carrying the (possibly updated) last state and an optional status broadcast.
`fgRes` is the environment-provided result of querying the foreground
process group (`none` models an ioctl error, which the loop swallows). -/
inductive TickResult where
  | exit
  | cont (newLast : String) (statusBroadcast : Option String)
deriving DecidableEq

def monitorTick (s : ShellServer) (fgRes : Option Nat) (lastState : String) : TickResult :=
  match s.ptyFile with
  | none => TickResult.exit
  | some _ =>
    match fgRes with
    | none => TickResult.cont lastState none
    | some pgid =>
      let newState := if pgid = s.shellPGID then "waiting" else "running"
      if newState ≠ lastState then TickResult.cont newState (some newState)
      else TickResult.cont lastState none

/-- Messages on a viewer connection, distinguished by transport framing. -/
inductive Msg where
  | binary (payload : List Nat)
  | text (payload : List Nat)
deriving DecidableEq

/-- The one-time ready signal, the JSON text with kind ready (main.go line 977). -/
def readyMsg : List Nat := strBytes "\x7b\"kind\":\"ready\"\x7d"

/-- The messages `addClient` writes to a newly registered viewer, in order
(main.go lines 956-979): the copied replay buffer as one binary message only
when it is non-empty, then the ready text message. -/
def addClientMessages (buffered : List Nat) : List Msg :=
  (if buffered.length > 0 then [Msg.binary buffered] else []) ++ [Msg.text readyMsg]

/-- Everything a viewer registered while the replay buffer is `buffered`
receives: the registration messages followed by whatever is broadcast
afterwards (the per-connection write lock serializes the two registration
writes ahead of later broadcasts). -/
def viewerStream (buffered : List Nat) (later : List Msg) : List Msg :=
  addClientMessages buffered ++ later

/-- The `"shell"` arm of `handleWidgetAction` (main.go lines 1091-1101):
an empty `cmd` is rejected with HTTP 400 before anything is written; a
non-empty `cmd` is written to the PTY with a single trailing newline and
answered with HTTP 204.  Returns `(state, httpStatus, bytesWrittenToPty)`. -/
def handleShellAction (s : ShellServer) (cmd : List Nat) :
    ShellServer × Nat × List Nat :=
  if cmd = [] then (s, 400, [])
  else (s, 204, cmd ++ [10])

/-- Go map lookup over the id-keyed widget store. -/
def findWidget : List (Nat × List Nat) → Nat → Option (List Nat)
  | [], _ => none
  | (k, v) :: rest, id => if k = id then some v else findWidget rest id

/-- The lookup performed by `handleHTMLWidget` (main.go lines 1132-1139):
`some payload` is served with an HTML content type, `none` becomes a 404. -/
def fetchWidget (s : ShellServer) (id : Nat) : Option (List Nat) :=
  findWidget s.registry.htmlWidgets id

/-- Interleavings of stream-processor chunks and restarts, for process-wide
counter claims. -/
inductive Op where
  | chunk (data : List Nat)
  | restartPty (res : Option (Nat × Nat))

/-- Runs a sequence of operations, collecting every widget id assigned along
the way in order. -/
def runOps (s : ShellServer) : List Op → ShellServer × List Nat
  | [] => (s, [])
  | Op.chunk d :: rest =>
    let r := processChunk s d
    let k := runOps r.1 rest
    (k.1, r.2.2 ++ k.2)
  | Op.restartPty res :: rest =>
    runOps (restartModel s res).1 rest

/-! ### Definitional stepping equations for the drivers -/

theorem runChunks_nil (s : ShellServer) : runChunks s [] = (s, [], []) := rfl

theorem runChunks_cons (s : ShellServer) (ch : List Nat) (rest : List (List Nat)) :
    runChunks s (ch :: rest) =
      ((runChunks (processChunk s ch).1 rest).1,
       (processChunk s ch).2.1 ++ (runChunks (processChunk s ch).1 rest).2.1,
       (processChunk s ch).2.2 ++ (runChunks (processChunk s ch).1 rest).2.2) := rfl

theorem feedChunks_nil (reg : Registry) (pending : List Nat) :
    feedChunks reg pending [] = (reg, pending, [], []) := rfl

theorem feedChunks_cons (reg : Registry) (pending : List Nat) (c : List Nat)
    (rest : List (List Nat)) :
    feedChunks reg pending (c :: rest) =
      ((feedChunks (extractAndStoreHTML reg (pending ++ c)).2.2.2
          (extractAndStoreHTML reg (pending ++ c)).2.1 rest).1,
       (feedChunks (extractAndStoreHTML reg (pending ++ c)).2.2.2
          (extractAndStoreHTML reg (pending ++ c)).2.1 rest).2.1,
       (extractAndStoreHTML reg (pending ++ c)).1 ++
         (feedChunks (extractAndStoreHTML reg (pending ++ c)).2.2.2
            (extractAndStoreHTML reg (pending ++ c)).2.1 rest).2.2.1,
       (extractAndStoreHTML reg (pending ++ c)).2.2.1 ++
         (feedChunks (extractAndStoreHTML reg (pending ++ c)).2.2.2
            (extractAndStoreHTML reg (pending ++ c)).2.1 rest).2.2.2) := rfl

/-! ### Widget ids are a contiguous increasing range -/

theorem extract_ids_aux :
    ∀ (n : Nat) (data : List Nat) (reg : Registry), data.length ≤ n →
      reg.htmlCounter ≤ (extractAndStoreHTML reg data).2.2.2.htmlCounter ∧
      (extractAndStoreHTML reg data).2.2.1 =
        List.range' (reg.htmlCounter + 1)
          ((extractAndStoreHTML reg data).2.2.2.htmlCounter - reg.htmlCounter) := by
  intro n
  induction n with
  | zero =>
    intro data reg hlen
    have hd : data = [] := List.length_eq_zero.mp (by omega)
    subst hd
    have h0 : bytesIndex ([] : List Nat) htmlStartMarker = none := by decide
    rw [extract_none h0]
    simp
  | succ n ih =>
    intro data reg hlen
    rcases h1 : bytesIndex data htmlStartMarker with _ | s
    · rw [extract_none h1]
      simp
    · rcases h2 : bytesIndex (data.drop s) htmlEndMarker with _ | e
      · rw [extract_pending h1 h2]
        simp
      · rw [extract_found h1 h2]
        have hb1 := bytesIndex_some_bound h1
        have hlenS : htmlStartMarker.length = 18 := by decide
        have hlenE : htmlEndMarker.length = 16 := by decide
        have hrest : (data.drop (s + e + htmlEndMarker.length)).length ≤ n := by
          simp only [List.length_drop]
          omega
        have hrec := ih (data.drop (s + e + htmlEndMarker.length))
          ⟨reg.htmlCounter + 1,
           reg.htmlWidgets ++
             [(reg.htmlCounter + 1, (data.take (s + e)).drop (s + htmlStartMarker.length))]⟩
          hrest
        dsimp only at hrec ⊢
        obtain ⟨hmono, hids⟩ := hrec
        refine ⟨by omega, ?_⟩
        rw [hids]
        have hstep :
        (extractAndStoreHTML
          ⟨reg.htmlCounter + 1,
           reg.htmlWidgets ++
             [(reg.htmlCounter + 1, (data.take (s + e)).drop (s + htmlStartMarker.length))]⟩
          (data.drop (s + e + htmlEndMarker.length))).2.2.2.htmlCounter - reg.htmlCounter =
        ((extractAndStoreHTML
          ⟨reg.htmlCounter + 1,
           reg.htmlWidgets ++
             [(reg.htmlCounter + 1, (data.take (s + e)).drop (s + htmlStartMarker.length))]⟩
          (data.drop (s + e + htmlEndMarker.length))).2.2.2.htmlCounter -
            (reg.htmlCounter + 1)) + 1 := by
          omega
        rw [hstep, List.range'_succ]

/-! ### Trailing-window algebra for the replay buffer -/

theorem lastN_length (n : Nat) (l : List Nat) :
    (lastN n l).length = min n l.length := by
  simp [lastN]
  omega

theorem lastN_of_le {n : Nat} {l : List Nat} (h : l.length ≤ n) : lastN n l = l := by
  simp [lastN, Nat.sub_eq_zero_of_le h]

theorem trim_eq_lastN (l : List Nat) :
    (if l.length > 64 * 1024 then l.drop (l.length - 64 * 1024) else l) =
      lastN 65536 l := by
  split
  · rfl
  · rw [lastN_of_le (by omega)]

theorem suffix_eq_of_length {l1 l2 l : List Nat}
    (h1 : l1 <:+ l) (h2 : l2 <:+ l) (h : l1.length = l2.length) : l1 = l2 := by
  obtain ⟨u1, hu1⟩ := h1
  obtain ⟨u2, hu2⟩ := h2
  have heq : u1 ++ l1 = u2 ++ l2 := by rw [hu1, hu2]
  have hul : u1.length = u2.length := by
    have := congrArg List.length heq
    simp at this
    omega
  exact (List.append_inj heq hul).2

theorem lastN_suffix (n : Nat) (l : List Nat) : lastN n l <:+ l :=
  List.drop_suffix _ _

theorem lastN_append_lastN (n : Nat) (a c : List Nat) :
    lastN n (lastN n a ++ c) = lastN n (a ++ c) := by
  apply @suffix_eq_of_length _ _ (a ++ c)
  · apply (lastN_suffix n (lastN n a ++ c)).trans
    obtain ⟨u, hu⟩ := lastN_suffix n a
    exact ⟨u, by rw [← List.append_assoc, hu]⟩
  · exact lastN_suffix n (a ++ c)
  · rw [lastN_length, lastN_length]
    simp [List.length_append, lastN_length]
    omega

theorem lastN_subset (n : Nat) (l : List Nat) : lastN n l ⊆ l :=
  List.drop_subset _ _

attribute [irreducible] lastN

/-! ### Chunks without ESC pass through unchanged -/

theorem containsAltScreenExit_eq_false_of_noEsc {l : List Nat} (h : noEsc l) :
    containsAltScreenExit l = false := by
  have p1 : strBytes "\x1b[?1049l" = 27 :: [91, 63, 49, 48, 52, 57, 108] := by decide
  have p2 : strBytes "\x1b[?47l" = 27 :: [91, 63, 52, 55, 108] := by decide
  have p3 : strBytes "\x1b[?1047l" = 27 :: [91, 63, 49, 48, 52, 55, 108] := by decide
  simp only [containsAltScreenExit, altExitPatterns, List.any_cons, List.any_nil,
    containsBytes, p1, p2, p3, bytesIndex_none_of_noEsc h]
  rfl

/-- Per-chunk behavior on an ESC-free chunk with empty pending buffer:
the chunk passes through verbatim and the replay buffer is the trailing
64 KiB window over the accumulated output. -/
theorem processChunk_noEsc {s : ShellServer} {data : List Nat}
    (hdata : noEsc data) (hpend : s.htmlBuffer = [])
    (hbuf : noEsc s.buffer) :
    processChunk s data =
      ({ s with buffer := lastN 65536 (s.buffer ++ data), htmlBuffer := [] }, data, []) := by
  have hex : extractAndStoreHTML s.registry (s.htmlBuffer ++ data) =
      (data, [], [], s.registry) := by
    rw [hpend, List.nil_append]
    exact extract_noEsc hdata
  have halt := containsAltScreenExit_eq_false_of_noEsc hdata
  have hstrip : stripHTMLMode (s.buffer ++ data) = s.buffer ++ data :=
    strip_none (bytesIndex_start_none_of_noEsc (noEsc_append hbuf hdata))
  simp only [processChunk, hex, halt, Bool.false_eq_true, if_neg, ite_false, hstrip,
    trim_eq_lastN]

/-! ### Partial blocks: a complete start marker with no end marker stays pending -/

theorem bytesIndex_short : ∀ {l pat : List Nat}, l.length < pat.length →
    bytesIndex l pat = none := by
  intro l
  induction l with
  | nil =>
    intro pat h
    cases pat with
    | nil => simp at h
    | cons p0 pt =>
      rw [bytesIndex.eq_def]
      simp [prefixMatch]
  | cons b t ih =>
    intro pat h
    have hpm : prefixMatch pat (b :: t) = false := by
      cases hc : prefixMatch pat (b :: t)
      · rfl
      · have hpl := prefixMatch_length hc
        simp only [List.length_cons] at hpl h
        omega
    rw [bytesIndex_cons_of_not hpm, ih (by simp only [List.length_cons] at h; omega)]
    rfl

theorem bytesIndex_append_none_of_shiftsOver {pat a b : List Nat}
    (ha : shiftsOver pat a) (hb : bytesIndex b pat = none) :
    bytesIndex (a ++ b) pat = none := by
  rw [ha, hb]
  rfl

/-- A complete start marker whose end marker has not arrived yet: everything
before the marker is processed, everything from the marker on stays pending
and the registry is untouched. -/
theorem extract_keeps_pending {c : Nat} {w : List (Nat × List Nat)} {pre mid : List Nat}
    (hpre : noEsc pre)
    (hnoend : bytesIndex (htmlStartMarker ++ mid) htmlEndMarker = none) :
    extractAndStoreHTML ⟨c, w⟩ (pre ++ (htmlStartMarker ++ mid)) =
      (pre, htmlStartMarker ++ mid, [], ⟨c, w⟩) := by
  have h1 : bytesIndex (pre ++ (htmlStartMarker ++ mid)) htmlStartMarker =
      some pre.length := by
    rw [shiftsOver_start_of_noEsc hpre, bytesIndex_self]
    simp
  have h2 : bytesIndex ((pre ++ (htmlStartMarker ++ mid)).drop pre.length)
      htmlEndMarker = none := by
    rw [List.drop_left]
    exact hnoend
  rw [extract_pending h1 h2, List.take_left, List.drop_left]

/-! ### Widget lookup -/

theorem findWidget_ne {w : List (Nat × List Nat)} {j : Nat}
    (h : ∀ p ∈ w, p.1 ≠ j) : findWidget w j = none := by
  induction w with
  | nil => rfl
  | cons p rest ih =>
    rw [show p = (p.1, p.2) from rfl, findWidget]
    rw [if_neg (h p (by simp))]
    exact ih fun q hq => h q (by simp [hq])

theorem findWidget_append_last {w : List (Nat × List Nat)} {id : Nat} {v : List Nat}
    (h : ∀ p ∈ w, p.1 ≠ id) : findWidget (w ++ [(id, v)]) id = some v := by
  induction w with
  | nil => simp [findWidget]
  | cons p rest ih =>
    rw [List.cons_append, show p = (p.1, p.2) from rfl, findWidget]
    rw [if_neg (h p (by simp))]
    exact ih fun q hq => h q (by simp [hq])

/-! ### Interleaved runs: the assigned ids form a contiguous range -/

theorem restartModel_registry (s : ShellServer) (res : Option (Nat × Nat)) :
    (restartModel s res).1.registry = s.registry := by
  cases res <;> rfl

theorem runOps_ids : ∀ (ops : List Op) (s : ShellServer),
    s.registry.htmlCounter ≤ (runOps s ops).1.registry.htmlCounter ∧
    (runOps s ops).2 = List.range' (s.registry.htmlCounter + 1)
      ((runOps s ops).1.registry.htmlCounter - s.registry.htmlCounter) := by
  intro ops
  induction ops with
  | nil =>
    intro s
    simp [runOps]
  | cons op rest ih =>
    intro s
    cases op with
    | chunk d =>
      obtain ⟨hm1, hi1⟩ :=
        extract_ids_aux (s.htmlBuffer ++ d).length (s.htmlBuffer ++ d) s.registry le_rfl
      obtain ⟨hm2, hi2⟩ := ih (processChunk s d).1
      have hreg : (processChunk s d).1.registry =
          (extractAndStoreHTML s.registry (s.htmlBuffer ++ d)).2.2.2 := rfl
      have hids : (processChunk s d).2.2 =
          (extractAndStoreHTML s.registry (s.htmlBuffer ++ d)).2.2.1 := rfl
      rw [hreg] at hm2 hi2
      constructor
      · simp only [runOps]
        omega
      · simp only [runOps, hids, hi1, hi2, hreg]
        have harr := List.range'_append (s.registry.htmlCounter + 1)
          ((extractAndStoreHTML s.registry (s.htmlBuffer ++ d)).2.2.2.htmlCounter -
            s.registry.htmlCounter)
          ((runOps (processChunk s d).1 rest).1.registry.htmlCounter -
            (extractAndStoreHTML s.registry (s.htmlBuffer ++ d)).2.2.2.htmlCounter) 1
        have hstart : s.registry.htmlCounter + 1 +
            1 * ((extractAndStoreHTML s.registry (s.htmlBuffer ++ d)).2.2.2.htmlCounter -
              s.registry.htmlCounter) =
            (extractAndStoreHTML s.registry (s.htmlBuffer ++ d)).2.2.2.htmlCounter + 1 := by
          omega
        rw [hstart] at harr
        rw [harr]
        congr 1
        omega
    | restartPty res =>
      obtain ⟨hm, hi⟩ := ih (restartModel s res).1
      rw [restartModel_registry] at hm hi
      exact ⟨by simpa [runOps] using hm, by simpa [runOps] using hi⟩

/-! ### Replay buffer over ESC-free chunk streams -/

theorem runChunks_noEsc : ∀ (chunks : List (List Nat)) (s : ShellServer),
    (∀ ch ∈ chunks, noEsc ch) → s.htmlBuffer = [] → noEsc s.buffer →
    s.buffer.length ≤ 65536 →
    (runChunks s chunks).2.1 = chunks.flatten ∧
    (runChunks s chunks).1.buffer = lastN 65536 (s.buffer ++ chunks.flatten) := by
  intro chunks
  induction chunks with
  | nil =>
    intro s hcs hpend hbuf hlen
    simp only [runChunks, List.flatten_nil, List.append_nil]
    exact ⟨trivial, (lastN_of_le hlen).symm⟩
  | cons ch rest ih =>
    intro s hcs hpend hbuf hlen
    have hch : noEsc ch := hcs ch (by simp)
    have hbuf1 : noEsc (lastN 65536 (s.buffer ++ ch)) :=
      noEsc_of_subset (lastN_subset _ _) (noEsc_append hbuf hch)
    have hlen1 : (lastN 65536 (s.buffer ++ ch)).length ≤ 65536 := by
      rw [lastN_length]
      omega
    obtain ⟨ihp, ihb⟩ :=
      ih { s with buffer := lastN 65536 (s.buffer ++ ch), htmlBuffer := [] }
        (fun c hc => hcs c (List.mem_cons_of_mem _ hc)) rfl hbuf1 hlen1
    rw [runChunks_cons, processChunk_noEsc hch hpend hbuf]
    constructor
    · dsimp only
      rw [ihp, List.flatten_cons]
    · dsimp only
      rw [ihb]
      show lastN 65536 (lastN 65536 (s.buffer ++ ch) ++ rest.flatten) = _
      rw [lastN_append_lastN, List.append_assoc, List.flatten_cons]

/-! ## Claim theorems -/

/-- C4: a raw chunk containing an alternate-screen-exit pattern discards all
prior replay-buffer content; immediately afterwards the buffer is exactly the
(trailing 64 KiB window of) the processed output of this invocation, independent
of the previous buffer. -/
theorem c4_altExit_clears_replay (s : ShellServer) (data : List Nat)
    (h : containsAltScreenExit data = true) :
    (processChunk s data).1.buffer =
      lastN 65536 (extractAndStoreHTML s.registry (s.htmlBuffer ++ data)).1 := by
  simp only [processChunk, h, ite_true, List.nil_append, strip_extract_processed,
    trim_eq_lastN]

/-- Witness for C4 at a concrete state and chunk. -/
theorem c4_altExit_clears_replay_witness :
    containsAltScreenExit (strBytes "\x1b[?1049l") = true ∧
    (processChunk ⟨some 1, false, 5, ⟨0, []⟩, strBytes "old", []⟩
        (strBytes "\x1b[?1049l")).1.buffer =
      lastN 65536 (extractAndStoreHTML (⟨0, []⟩ : Registry)
        (([] : List Nat) ++ strBytes "\x1b[?1049l")).1 :=
  ⟨by decide, c4_altExit_clears_replay ⟨some 1, false, 5, ⟨0, []⟩, strBytes "old", []⟩
    (strBytes "\x1b[?1049l") (by decide)⟩

/-- C6 counterexample: a successful restart leaves the pending-protocol
buffer (`htmlBuffer`) untouched — here it still holds `[66]` although the
claim requires it to be empty. -/
theorem c6_counterexample :
    (restartModel ⟨some 1, false, 5, ⟨0, []⟩, [65], [66]⟩ (some (2, 7))).2 = true ∧
    (restartModel ⟨some 1, false, 5, ⟨0, []⟩, [65], [66]⟩ (some (2, 7))).1.htmlBuffer =
      [66] ∧
    ([66] : List Nat) ≠ [] := by
  decide

/-- C6 amended: a successful restart clears the replay buffer, but the
pending-protocol buffer keeps its prior content. -/
theorem c6_restart_clears_replay_only (s : ShellServer) (res : Option (Nat × Nat))
    (h : (restartModel s res).2 = true) :
    (restartModel s res).1.buffer = [] ∧
    (restartModel s res).1.htmlBuffer = s.htmlBuffer := by
  cases res with
  | none => simp [restartModel] at h
  | some hg => exact ⟨rfl, rfl⟩

/-- Witness for the amended C6. -/
theorem c6_restart_clears_replay_only_witness :
    (restartModel ⟨some 1, false, 5, ⟨0, []⟩, [65], [66]⟩ (some (2, 7))).2 = true ∧
    ((restartModel ⟨some 1, false, 5, ⟨0, []⟩, [65], [66]⟩ (some (2, 7))).1.buffer = [] ∧
      (restartModel ⟨some 1, false, 5, ⟨0, []⟩, [65], [66]⟩ (some (2, 7))).1.htmlBuffer =
        (⟨some 1, false, 5, ⟨0, []⟩, [65], [66]⟩ : ShellServer).htmlBuffer) :=
  ⟨by decide, c6_restart_clears_replay_only ⟨some 1, false, 5, ⟨0, []⟩, [65], [66]⟩
    (some (2, 7)) (by decide)⟩

/-- C7 counterexample: when the spawn attempt fails, the old PTY has already
been closed (close happens before `startPTY`), so the previous session is not
left usable even though the restart reported failure. -/
theorem c7_counterexample :
    (restartModel ⟨some 1, false, 5, ⟨0, []⟩, [65], [66]⟩ none).2 = false ∧
    (restartModel ⟨some 1, false, 5, ⟨0, []⟩, [65], [66]⟩ none).1.ptyClosed = true ∧
    (⟨some 1, false, 5, ⟨0, []⟩, [65], [66]⟩ : ShellServer).ptyClosed = false := by
  decide

/-- C7 amended: a failed restart leaves the recorded handle, group id,
registry and both buffers unchanged, but the old PTY has been closed before
the spawn attempt, so the prior session is no longer usable. -/
theorem c7_restart_failure_closes_first (s : ShellServer) :
    restartModel s none = ({ s with ptyClosed := true }, false) := rfl

/-- C8 counterexample: with an empty replay buffer at registration the viewer
receives no binary message at all — only the ready text message — so the
claimed binary-then-ready sequence does not occur. -/
theorem c8_counterexample :
    addClientMessages [] = [Msg.text readyMsg] ∧ (addClientMessages []).length = 1 := by
  decide

/-- C8 amended: a viewer registered while the buffer is non-empty receives
the buffer as one binary message, then the ready message, before anything
broadcast later; with an empty buffer the binary message is skipped and only
the ready message precedes later traffic. -/
theorem c8_registration_order (buffered : List Nat) (later : List Msg) :
    (buffered ≠ [] →
      viewerStream buffered later =
        Msg.binary buffered :: Msg.text readyMsg :: later) ∧
    (buffered = [] → viewerStream buffered later = Msg.text readyMsg :: later) := by
  constructor
  · intro h
    have hpos : buffered.length > 0 := List.length_pos.mpr h
    simp [viewerStream, addClientMessages, hpos]
  · intro h
    subst h
    simp [viewerStream, addClientMessages]

/-- Witness for the amended C8. -/
theorem c8_registration_order_witness :
    (([65] : List Nat) ≠ [] ∧
      viewerStream [65] [Msg.binary [7]] =
        Msg.binary [65] :: Msg.text readyMsg :: [Msg.binary [7]]) ∧
    (([] : List Nat) = [] ∧
      viewerStream [] [Msg.binary [7]] = Msg.text readyMsg :: [Msg.binary [7]]) :=
  ⟨⟨by decide, (c8_registration_order [65] [Msg.binary [7]]).1 (by decide)⟩,
   ⟨rfl, (c8_registration_order [] [Msg.binary [7]]).2 rfl⟩⟩

/-- C9 counterexample: after a successful restart the (old) monitor loop does
not reach its exit condition — the handle is replaced, never set to nil, so
a tick against the post-restart state continues polling. -/
theorem c9_counterexample :
    (restartModel ⟨some 1, false, 5, ⟨0, []⟩, [], []⟩ (some (2, 7))).1.ptyFile =
      some 2 ∧
    monitorTick (restartModel ⟨some 1, false, 5, ⟨0, []⟩, [], []⟩ (some (2, 7))).1
      (some 7) "waiting" ≠ TickResult.exit := by
  decide

/-- C9 amended: the monitor tick exits exactly when the PTY handle is nil,
and restart (successful or failed) never sets the handle to nil, so the old
monitor does not terminate through its exit condition after a restart. -/
theorem c9_monitor_exit_condition (s : ShellServer) (fgRes : Option Nat)
    (lastState : String) (res : Option (Nat × Nat)) (h : s.ptyFile ≠ none) :
    (monitorTick s fgRes lastState = TickResult.exit ↔ s.ptyFile = none) ∧
    (restartModel s res).1.ptyFile ≠ none := by
  constructor
  · cases hp : s.ptyFile with
    | none => simp [monitorTick, hp]
    | some v =>
      constructor
      · intro hc
        exfalso
        rcases hfg : fgRes with _ | pgid
        · simp [monitorTick, hp, hfg] at hc
        · simp only [monitorTick, hp, hfg] at hc
          split at hc <;> split at hc <;> simp at hc
      · intro hc
        simp [hp] at hc
  · rcases res with _ | hg
    · simpa [restartModel] using h
    · simp [restartModel]

/-- Witness for the amended C9. -/
theorem c9_monitor_exit_condition_witness :
    (⟨some 1, false, 5, ⟨0, []⟩, [], []⟩ : ShellServer).ptyFile ≠ none ∧
    ((monitorTick ⟨some 1, false, 5, ⟨0, []⟩, [], []⟩ (some 5) "waiting" =
        TickResult.exit ↔
        (⟨some 1, false, 5, ⟨0, []⟩, [], []⟩ : ShellServer).ptyFile = none) ∧
      (restartModel ⟨some 1, false, 5, ⟨0, []⟩, [], []⟩ (some (2, 7))).1.ptyFile ≠
        none) :=
  ⟨by decide, c9_monitor_exit_condition ⟨some 1, false, 5, ⟨0, []⟩, [], []⟩ (some 5)
    "waiting" (some (2, 7)) (by decide)⟩

/-- C10: a `"shell"` widget action with empty `cmd` is answered with HTTP 400
and writes nothing to the PTY, leaving the state unchanged; with non-empty
`cmd`, exactly the command bytes plus one trailing newline are written and
the state is likewise unchanged. -/
theorem c10_shell_action (s : ShellServer) (cmd : List Nat) :
    (cmd = [] → handleShellAction s cmd = (s, 400, [])) ∧
    (cmd ≠ [] → handleShellAction s cmd = (s, 204, cmd ++ [10])) := by
  constructor
  · intro h
    simp [handleShellAction, h]
  · intro h
    simp [handleShellAction, h]

/-- Witness for C10. -/
theorem c10_shell_action_witness :
    (([] : List Nat) = [] ∧
      handleShellAction ⟨some 1, false, 5, ⟨0, []⟩, [], []⟩ [] =
        (⟨some 1, false, 5, ⟨0, []⟩, [], []⟩, 400, [])) ∧
    (strBytes "ls" ≠ [] ∧
      handleShellAction ⟨some 1, false, 5, ⟨0, []⟩, [], []⟩ (strBytes "ls") =
        (⟨some 1, false, 5, ⟨0, []⟩, [], []⟩, 204, strBytes "ls" ++ [10])) :=
  ⟨⟨rfl, (c10_shell_action ⟨some 1, false, 5, ⟨0, []⟩, [], []⟩ []).1 rfl⟩,
   ⟨by decide, (c10_shell_action ⟨some 1, false, 5, ⟨0, []⟩, [], []⟩ (strBytes "ls")).2
      (by decide)⟩⟩

/-- C2: for a chunk holding one well-formed marker pair, the payload between
the markers is stored verbatim under the newly assigned id, the whole block
is removed from the processed output and replaced by the hyperlink sequence
encoding that id, a fetch of the new id returns exactly the stored payload,
and fetching any id never assigned returns not-found. -/
theorem c2_store_substitute_fetch (c : Nat) (w : List (Nat × List Nat))
    (s : ShellServer) (pre payload post : List Nat)
    (hpre : noEsc pre) (hpay : noEsc payload) (hpost : noEsc post)
    (hreg : s.registry = ⟨c, w⟩) (hpend : s.htmlBuffer = [])
    (hw : ∀ p ∈ w, p.1 ≤ c) :
    (processChunk s
        (pre ++ (htmlStartMarker ++ (payload ++ (htmlEndMarker ++ post))))).2.1 =
      pre ++ linkFor (c + 1) ++ post ∧
    (processChunk s
        (pre ++ (htmlStartMarker ++ (payload ++ (htmlEndMarker ++ post))))).2.2 =
      [c + 1] ∧
    fetchWidget
      (processChunk s
        (pre ++ (htmlStartMarker ++ (payload ++ (htmlEndMarker ++ post))))).1
      (c + 1) = some payload ∧
    ∀ j, c + 1 < j →
      fetchWidget
        (processChunk s
          (pre ++ (htmlStartMarker ++ (payload ++ (htmlEndMarker ++ post))))).1
        j = none := by
  have hex : extractAndStoreHTML s.registry
      (s.htmlBuffer ++ (pre ++ (htmlStartMarker ++ (payload ++ (htmlEndMarker ++ post))))) =
      (pre ++ linkFor (c + 1) ++ post, [], [c + 1], ⟨c + 1, w ++ [(c + 1, payload)]⟩) := by
    rw [hpend, List.nil_append, hreg, extract_step hpre hpay, extract_noEsc hpost]
  refine ⟨?_, ?_, ?_, ?_⟩
  · simp only [processChunk, hex]
  · simp only [processChunk, hex]
  · simp only [processChunk, fetchWidget, hex]
    exact findWidget_append_last fun p hp => by
      have := hw p hp
      omega
  · intro j hj
    simp only [processChunk, fetchWidget, hex]
    apply findWidget_ne
    intro p hp
    rcases List.mem_append.mp hp with hin | hin
    · have := hw p hin
      omega
    · simp at hin
      simp [hin]
      omega

/-- Witness for C2. -/
theorem c2_store_substitute_fetch_witness :
    (noEsc (strBytes "a") ∧ noEsc (strBytes "<b>hi</b>") ∧ noEsc (strBytes "z")) ∧
    (processChunk ⟨some 1, false, 5, ⟨0, []⟩, [], []⟩
        (strBytes "a" ++ (htmlStartMarker ++ (strBytes "<b>hi</b>" ++
          (htmlEndMarker ++ strBytes "z"))))).2.1 =
      strBytes "a" ++ linkFor 1 ++ strBytes "z" ∧
    (processChunk ⟨some 1, false, 5, ⟨0, []⟩, [], []⟩
        (strBytes "a" ++ (htmlStartMarker ++ (strBytes "<b>hi</b>" ++
          (htmlEndMarker ++ strBytes "z"))))).2.2 = [1] ∧
    fetchWidget
      (processChunk ⟨some 1, false, 5, ⟨0, []⟩, [], []⟩
        (strBytes "a" ++ (htmlStartMarker ++ (strBytes "<b>hi</b>" ++
          (htmlEndMarker ++ strBytes "z"))))).1 1 = some (strBytes "<b>hi</b>") ∧
    fetchWidget
      (processChunk ⟨some 1, false, 5, ⟨0, []⟩, [], []⟩
        (strBytes "a" ++ (htmlStartMarker ++ (strBytes "<b>hi</b>" ++
          (htmlEndMarker ++ strBytes "z"))))).1 9 = none := by
  have hmain := c2_store_substitute_fetch 0 [] ⟨some 1, false, 5, ⟨0, []⟩, [], []⟩
    (strBytes "a") (strBytes "<b>hi</b>") (strBytes "z")
    (by decide) (by decide) (by decide) rfl rfl (by intro p hp; simp at hp)
  exact ⟨⟨by decide, by decide, by decide⟩, hmain.1, hmain.2.1, hmain.2.2.1,
    hmain.2.2.2 9 (by omega)⟩

/-- C5: widget ids are strictly increasing and never reused over any
interleaving of chunks and restarts (the counter survives restart); the ids
assigned form the contiguous range that continues from the counter, and two
independent marker pairs in one chunk are extracted left-to-right with
consecutive increasing ids and their payloads stored in that order. -/
theorem c5_ids_increasing_across_restarts :
    (∀ (s : ShellServer) (ops : List Op),
      s.registry.htmlCounter ≤ (runOps s ops).1.registry.htmlCounter ∧
      (runOps s ops).2 = List.range' (s.registry.htmlCounter + 1)
        ((runOps s ops).1.registry.htmlCounter - s.registry.htmlCounter) ∧
      List.Pairwise (· < ·) (runOps s ops).2) ∧
    (∀ (c : Nat) (w : List (Nat × List Nat)) (pre1 p1 mid p2 post : List Nat),
      noEsc pre1 → noEsc p1 → noEsc mid → noEsc p2 → noEsc post →
      extractAndStoreHTML ⟨c, w⟩
          (pre1 ++ (htmlStartMarker ++ (p1 ++ (htmlEndMarker ++
            (mid ++ (htmlStartMarker ++ (p2 ++ (htmlEndMarker ++ post)))))))) =
        (pre1 ++ linkFor (c + 1) ++ (mid ++ linkFor (c + 2) ++ post), [],
          [c + 1, c + 2], ⟨c + 2, w ++ [(c + 1, p1), (c + 2, p2)]⟩)) := by
  constructor
  · intro s ops
    obtain ⟨hm, hi⟩ := runOps_ids ops s
    refine ⟨hm, hi, ?_⟩
    rw [hi]
    exact List.pairwise_lt_range' _ _
  · intro c w pre1 p1 mid p2 post h1 h2 h3 h4 h5
    rw [extract_step h1 h2, extract_step h3 h4, extract_noEsc h5]
    simp [List.append_assoc]

/-- Witness for C5 (the two-pair conjunct at concrete inputs). -/
theorem c5_ids_increasing_across_restarts_witness :
    (noEsc (strBytes "a") ∧ noEsc (strBytes "P") ∧ noEsc (strBytes "-") ∧
      noEsc (strBytes "Q") ∧ noEsc (strBytes "z")) ∧
    extractAndStoreHTML ⟨3, []⟩
        (strBytes "a" ++ (htmlStartMarker ++ (strBytes "P" ++ (htmlEndMarker ++
          (strBytes "-" ++ (htmlStartMarker ++ (strBytes "Q" ++
            (htmlEndMarker ++ strBytes "z")))))))) =
      (strBytes "a" ++ linkFor 4 ++ (strBytes "-" ++ linkFor 5 ++ strBytes "z"), [],
        [4, 5], ⟨5, [(4, strBytes "P"), (5, strBytes "Q")]⟩) :=
  ⟨⟨by decide, by decide, by decide, by decide, by decide⟩,
   c5_ids_increasing_across_restarts.2 3 [] (strBytes "a") (strBytes "P")
     (strBytes "-") (strBytes "Q") (strBytes "z")
     (by decide) (by decide) (by decide) (by decide) (by decide)⟩

/-- C3 counterexample: after more than 64 KiB of processed output, a chunk
carrying an alternate-screen-exit pattern clears the replay buffer, so the
buffer (8 bytes) is not the trailing 64 KiB of the reference accumulation of
processed output (65545 bytes). -/
theorem c3_counterexample :
    65536 < (runChunks ⟨some 1, false, 5, ⟨0, []⟩, [], []⟩
        [List.replicate 65537 65, strBytes "\x1b[?1049l"]).2.1.length ∧
    (runChunks ⟨some 1, false, 5, ⟨0, []⟩, [], []⟩
        [List.replicate 65537 65, strBytes "\x1b[?1049l"]).1.buffer ≠
      lastN 65536 (runChunks ⟨some 1, false, 5, ⟨0, []⟩, [], []⟩
        [List.replicate 65537 65, strBytes "\x1b[?1049l"]).2.1 := by
  have hbig : noEsc (List.replicate 65537 65) := by
    intro b hb
    have hb2 := List.eq_of_mem_replicate hb
    omega
  have h1 : processChunk ⟨some 1, false, 5, ⟨0, []⟩, [], []⟩ (List.replicate 65537 65) =
      (⟨some 1, false, 5, ⟨0, []⟩,
        lastN 65536 (([] : List Nat) ++ List.replicate 65537 65), []⟩,
       List.replicate 65537 65, []) :=
    processChunk_noEsc hbig rfl (by intro b hb; simp at hb)
  have hnostart : bytesIndex (strBytes "\x1b[?1049l") htmlStartMarker = none := by
    decide
  have h2 : processChunk
      ⟨some 1, false, 5, ⟨0, []⟩,
        lastN 65536 (([] : List Nat) ++ List.replicate 65537 65), []⟩
      (strBytes "\x1b[?1049l") =
      (⟨some 1, false, 5, ⟨0, []⟩, strBytes "\x1b[?1049l", []⟩,
       strBytes "\x1b[?1049l", []) := by
    have hex : extractAndStoreHTML (⟨0, []⟩ : Registry) (strBytes "\x1b[?1049l") =
        (strBytes "\x1b[?1049l", [], [], ⟨0, []⟩) := extract_none hnostart
    have halt : containsAltScreenExit (strBytes "\x1b[?1049l") = true := by decide
    have hstrip : stripHTMLMode (strBytes "\x1b[?1049l") = strBytes "\x1b[?1049l" :=
      strip_none hnostart
    have hcond : ¬ ((strBytes "\x1b[?1049l").length > 64 * 1024) := by decide
    simp only [processChunk, List.nil_append, hex, halt, ite_true, hstrip,
      if_neg hcond]
  have hrun : runChunks ⟨some 1, false, 5, ⟨0, []⟩, [], []⟩
      [List.replicate 65537 65, strBytes "\x1b[?1049l"] =
      (⟨some 1, false, 5, ⟨0, []⟩, strBytes "\x1b[?1049l", []⟩,
       List.replicate 65537 65 ++ (strBytes "\x1b[?1049l" ++ []),
       [] ++ ([] ++ [])) := by
    rw [runChunks_cons, h1]
    dsimp only
    rw [runChunks_cons, h2]
    dsimp only
    rw [runChunks_nil]
  rw [hrun]
  have hlen8 : (strBytes "\x1b[?1049l").length = 8 := by decide
  constructor
  · simp only [List.length_append, List.length_replicate, List.length_nil, hlen8]
    omega
  · intro heq
    have hlen := congrArg List.length heq
    simp only [hlen8, lastN_length, List.length_append, List.length_replicate,
      List.length_nil] at hlen
    omega


/-- C3 (amended): the replay buffer never exceeds 64 KiB after any stream
processor invocation; and for chunk streams free of ESC bytes (hence free of
protocol markers and alternate-screen-exit patterns) the buffer is exactly
the trailing 64 KiB window of the unbounded reference accumulation of the
processed output. -/
theorem c3_buffer_cap_and_window :
    (∀ (s : ShellServer) (data : List Nat),
      (processChunk s data).1.buffer.length ≤ 65536) ∧
    (∀ (chunks : List (List Nat)) (s : ShellServer),
      (∀ ch ∈ chunks, noEsc ch) → s.htmlBuffer = [] → s.buffer = [] →
      (runChunks s chunks).2.1 = chunks.flatten ∧
      (runChunks s chunks).1.buffer = lastN 65536 (runChunks s chunks).2.1) := by
  constructor
  · intro s data
    simp only [processChunk]
    split
    next =>
      split
      next h =>
        simp only [List.length_drop]
        omega
      next h =>
        omega
    next =>
      split
      next h =>
        simp only [List.length_drop]
        omega
      next h =>
        omega
  · intro chunks s hc hpend hbuf
    obtain ⟨hp, hb⟩ := runChunks_noEsc chunks s hc hpend
      (by rw [hbuf]; intro b hb2; simp at hb2)
      (by rw [hbuf]; simp)
    refine ⟨hp, ?_⟩
    rw [hb, hp, hbuf, List.nil_append]

/-- Witness for the amended C3. -/
theorem c3_buffer_cap_and_window_witness :
    ((∀ ch ∈ [strBytes "hello"], noEsc ch) ∧
      (⟨some 1, false, 5, ⟨0, []⟩, [], []⟩ : ShellServer).htmlBuffer = [] ∧
      (⟨some 1, false, 5, ⟨0, []⟩, [], []⟩ : ShellServer).buffer = []) ∧
    (processChunk ⟨some 1, false, 5, ⟨0, []⟩, [], []⟩ (strBytes "x")).1.buffer.length ≤
      65536 ∧
    ((runChunks ⟨some 1, false, 5, ⟨0, []⟩, [], []⟩ [strBytes "hello"]).2.1 =
        [strBytes "hello"].flatten ∧
      (runChunks ⟨some 1, false, 5, ⟨0, []⟩, [], []⟩ [strBytes "hello"]).1.buffer =
        lastN 65536
          (runChunks ⟨some 1, false, 5, ⟨0, []⟩, [], []⟩ [strBytes "hello"]).2.1) :=
  ⟨⟨by decide, rfl, rfl⟩,
   c3_buffer_cap_and_window.1 ⟨some 1, false, 5, ⟨0, []⟩, [], []⟩ (strBytes "x"),
   c3_buffer_cap_and_window.2 [strBytes "hello"] ⟨some 1, false, 5, ⟨0, []⟩, [], []⟩
     (by decide) rfl rfl⟩

/-- C1 counterexample: splitting a well-formed block one byte into the start
marker loses the widget.  The two split pieces (first chunk `[ESC]`, second
chunk the rest) pass through with no extraction, while the unsplit chunk
extracts widget 1. -/
theorem c1_counterexample :
    (feedChunks ⟨0, []⟩ []
        [[27],
         (htmlStartMarker ++ (strBytes "hi" ++ htmlEndMarker)).drop 1]).2.2.2 = [] ∧
    (feedChunks ⟨0, []⟩ []
        [htmlStartMarker ++ (strBytes "hi" ++ htmlEndMarker)]).2.2.2 = [1] ∧
    (htmlStartMarker ++ (strBytes "hi" ++ htmlEndMarker)).take 1 = [27] := by
  refine ⟨?_, ?_, by decide⟩
  · have e1 : extractAndStoreHTML (⟨0, []⟩ : Registry) (([] : List Nat) ++ [27]) =
        ([27], [], [], ⟨0, []⟩) := by
      rw [List.nil_append]
      exact extract_none (by decide)
    have e2 : extractAndStoreHTML (⟨0, []⟩ : Registry)
        (([] : List Nat) ++
          (htmlStartMarker ++ (strBytes "hi" ++ htmlEndMarker)).drop 1) =
        ((htmlStartMarker ++ (strBytes "hi" ++ htmlEndMarker)).drop 1, [], [],
          ⟨0, []⟩) := by
      rw [List.nil_append]
      exact extract_none (by decide)
    rw [feedChunks_cons, e1]
    dsimp only
    rw [feedChunks_cons, e2]
    dsimp only
    rw [feedChunks_nil]
    simp
  · have hshape : ([] : List Nat) ++ (htmlStartMarker ++ (strBytes "hi" ++ htmlEndMarker)) =
        ([] : List Nat) ++
          (htmlStartMarker ++ (strBytes "hi" ++ (htmlEndMarker ++ ([] : List Nat)))) := by
      simp
    rw [feedChunks_cons, hshape,
      extract_step (by intro b hb; simp at hb) (by decide),
      extract_noEsc (by intro b hb; simp at hb)]
    dsimp only
    rw [feedChunks_nil]
    simp

/-- C1 (amended): split-invariance holds for every split point that is not
strictly inside the start marker.  For a well-formed block whose surrounding
text and payload contain no ESC byte, feeding `full.take k` then
`full.drop k` (carrying the pending remainder) yields the same registry,
pending state, processed output and widget ids as feeding `full` unsplit,
whenever `k` lies at or before the start marker, or at or after its end. -/
theorem c1_split_invariance (c : Nat) (w : List (Nat × List Nat))
    (pre payload post : List Nat) (k : Nat)
    (hpre : noEsc pre) (hpay : noEsc payload) (hpost : noEsc post)
    (hk : k ≤ pre.length ∨ pre.length + htmlStartMarker.length ≤ k) :
    feedChunks ⟨c, w⟩ []
        [(pre ++ (htmlStartMarker ++ (payload ++ (htmlEndMarker ++ post)))).take k,
         (pre ++ (htmlStartMarker ++ (payload ++ (htmlEndMarker ++ post)))).drop k] =
      feedChunks ⟨c, w⟩ []
        [pre ++ (htmlStartMarker ++ (payload ++ (htmlEndMarker ++ post)))] := by
  have hlenS : htmlStartMarker.length = 18 := by decide
  have hlenE : htmlEndMarker.length = 16 := by decide
  have hnilEsc : noEsc ([] : List Nat) := by intro b hb; simp at hb
  have hRHS : feedChunks ⟨c, w⟩ []
      [pre ++ (htmlStartMarker ++ (payload ++ (htmlEndMarker ++ post)))] =
      (⟨c + 1, w ++ [(c + 1, payload)]⟩, [], pre ++ linkFor (c + 1) ++ post,
        [c + 1]) := by
    rw [feedChunks_cons]
    simp only [List.nil_append]
    rw [extract_step hpre hpay, extract_noEsc hpost]
    dsimp only
    rw [feedChunks_nil]
    simp
  rw [hRHS]
  rcases hk with hk | hk
  · rw [List.take_append_of_le_length hk, List.drop_append_of_le_length hk]
    rw [feedChunks_cons]
    simp only [List.nil_append]
    rw [extract_noEsc (noEsc_of_subset (List.take_subset _ _) hpre)]
    dsimp only
    rw [feedChunks_cons]
    simp only [List.nil_append]
    rw [extract_step (noEsc_of_subset (List.drop_subset _ _) hpre) hpay,
      extract_noEsc hpost]
    dsimp only
    rw [feedChunks_nil]
    simp only [List.append_nil, List.nil_append]
    have hglue : pre.take k ++ ((pre.drop k ++ linkFor (c + 1)) ++ post) =
        (pre ++ linkFor (c + 1)) ++ post := by
      simp only [← List.append_assoc]
      rw [List.take_append_drop]
    rw [hglue]
  · have hassoc : pre ++ (htmlStartMarker ++ (payload ++ (htmlEndMarker ++ post))) =
        (pre ++ htmlStartMarker) ++ (payload ++ (htmlEndMarker ++ post)) :=
      (List.append_assoc _ _ _).symm
    have hlenPS : (pre ++ htmlStartMarker).length = pre.length + 18 := by
      simp [hlenS]
    have hkPS : (pre ++ htmlStartMarker).length ≤ k := by omega
    have htake1 : (pre ++ (htmlStartMarker ++ (payload ++ (htmlEndMarker ++ post)))).take k =
        (pre ++ htmlStartMarker) ++
          (payload ++ (htmlEndMarker ++ post)).take (k - (pre.length + 18)) := by
      rw [hassoc, List.take_append_eq_append_take, List.take_of_length_le hkPS, hlenPS]
    have hdrop1 : (pre ++ (htmlStartMarker ++ (payload ++ (htmlEndMarker ++ post)))).drop k =
        (payload ++ (htmlEndMarker ++ post)).drop (k - (pre.length + 18)) := by
      rw [hassoc, List.drop_append_eq_append_drop, List.drop_eq_nil_of_le hkPS,
        List.nil_append, hlenPS]
    rw [htake1, hdrop1]
    have hassoc2 : payload ++ (htmlEndMarker ++ post) =
        (payload ++ htmlEndMarker) ++ post := (List.append_assoc _ _ _).symm
    have hlenPE : (payload ++ htmlEndMarker).length = payload.length + 16 := by
      simp [hlenE]
    by_cases hcase : k - (pre.length + 18) < payload.length + 16
    · have hle1 : k - (pre.length + 18) ≤ (payload ++ htmlEndMarker).length := by
        omega
      have htt : (payload ++ (htmlEndMarker ++ post)).take (k - (pre.length + 18)) =
          (payload ++ htmlEndMarker).take (k - (pre.length + 18)) := by
        rw [hassoc2, List.take_append_eq_append_take,
          Nat.sub_eq_zero_of_le hle1, List.take_zero, List.append_nil]
      have htd : (payload ++ (htmlEndMarker ++ post)).drop (k - (pre.length + 18)) =
          (payload ++ htmlEndMarker).drop (k - (pre.length + 18)) ++ post := by
        rw [hassoc2, List.drop_append_eq_append_drop,
          Nat.sub_eq_zero_of_le hle1, List.drop_zero]
      rw [htt, htd]
      have hc1 : (pre ++ htmlStartMarker) ++
          (payload ++ htmlEndMarker).take (k - (pre.length + 18)) =
          pre ++ (htmlStartMarker ++
            (payload ++ htmlEndMarker).take (k - (pre.length + 18))) :=
        List.append_assoc _ _ _
      have hnoend : bytesIndex
          (htmlStartMarker ++ (payload ++ htmlEndMarker).take (k - (pre.length + 18)))
          htmlEndMarker = none := by
        apply bytesIndex_append_none_of_shiftsOver shiftsOver_end_start
        rw [List.take_append_eq_append_take]
        apply bytesIndex_append_none_of_shiftsOver
          (shiftsOver_end_of_noEsc (noEsc_of_subset (List.take_subset _ _) hpay))
        apply bytesIndex_short
        have hta := List.length_take_le (k - (pre.length + 18) - payload.length)
          htmlEndMarker
        omega
      rw [feedChunks_cons]
      simp only [List.nil_append]
      rw [hc1, extract_keeps_pending hpre hnoend]
      dsimp only
      rw [feedChunks_cons]
      have hjoin : (htmlStartMarker ++
          (payload ++ htmlEndMarker).take (k - (pre.length + 18))) ++
          ((payload ++ htmlEndMarker).drop (k - (pre.length + 18)) ++ post) =
          htmlStartMarker ++ (payload ++ (htmlEndMarker ++ post)) := by
        rw [List.append_assoc,
          ← List.append_assoc ((payload ++ htmlEndMarker).take (k - (pre.length + 18))),
          List.take_append_drop, List.append_assoc]
      rw [hjoin]
      have hstep0 := @extract_step c w ([] : List Nat) payload post hnilEsc hpay
      rw [extract_noEsc hpost] at hstep0
      simp only [List.nil_append] at hstep0
      rw [hstep0]
      dsimp only
      rw [feedChunks_nil]
      simp [List.append_assoc]
    · have hge1 : (payload ++ htmlEndMarker).length ≤ k - (pre.length + 18) := by
        omega
      have htt : (payload ++ (htmlEndMarker ++ post)).take (k - (pre.length + 18)) =
          (payload ++ htmlEndMarker) ++
            post.take (k - (pre.length + 18) - (payload.length + 16)) := by
        rw [hassoc2, List.take_append_eq_append_take,
          List.take_of_length_le hge1, hlenPE]
      have htd : (payload ++ (htmlEndMarker ++ post)).drop (k - (pre.length + 18)) =
          post.drop (k - (pre.length + 18) - (payload.length + 16)) := by
        rw [hassoc2, List.drop_append_eq_append_drop,
          List.drop_eq_nil_of_le hge1, List.nil_append, hlenPE]
      rw [htt, htd]
      have hc1 : (pre ++ htmlStartMarker) ++ ((payload ++ htmlEndMarker) ++
          post.take (k - (pre.length + 18) - (payload.length + 16))) =
          pre ++ (htmlStartMarker ++ (payload ++ (htmlEndMarker ++
            post.take (k - (pre.length + 18) - (payload.length + 16))))) := by
        simp [List.append_assoc]
      rw [feedChunks_cons]
      simp only [List.nil_append]
      rw [hc1, extract_step hpre hpay,
        extract_noEsc (noEsc_of_subset (List.take_subset _ _) hpost)]
      dsimp only
      rw [feedChunks_cons]
      simp only [List.nil_append]
      rw [extract_noEsc (noEsc_of_subset (List.drop_subset _ _) hpost)]
      dsimp only
      rw [feedChunks_nil]
      simp [List.append_assoc]

/-- Witness for the amended C1, splitting at the very start. -/
theorem c1_split_invariance_witness :
    (noEsc (strBytes "x") ∧ noEsc (strBytes "hi") ∧ noEsc (strBytes "y") ∧
      (0 ≤ (strBytes "x").length ∨
        (strBytes "x").length + htmlStartMarker.length ≤ 0)) ∧
    feedChunks ⟨0, []⟩ []
        [(strBytes "x" ++ (htmlStartMarker ++ (strBytes "hi" ++
          (htmlEndMarker ++ strBytes "y")))).take 0,
         (strBytes "x" ++ (htmlStartMarker ++ (strBytes "hi" ++
          (htmlEndMarker ++ strBytes "y")))).drop 0] =
      feedChunks ⟨0, []⟩ []
        [strBytes "x" ++ (htmlStartMarker ++ (strBytes "hi" ++
          (htmlEndMarker ++ strBytes "y")))] :=
  ⟨⟨by decide, by decide, by decide, by decide⟩,
   c1_split_invariance 0 [] (strBytes "x") (strBytes "hi") (strBytes "y") 0
     (by decide) (by decide) (by decide) (by decide)⟩

end Goshell
